import Mathlib

/-!
Shallow embedding of `src/writer.rs` (the `HarmonicWriter` of the
harmonizer repository) and verification of the specification's claims.

The HDF5 container library is modelled by an explicit on-disk file state
(`HFile`): groups, scalar attributes and datasets are plain data.  The
on-disk byte size returned by `current_path.metadata()?.len()` is not a
function of the written data (it depends on the container library's
layout), so each call to `write` takes the reported size as an input from
the environment.  Fallible container calls are modelled by an explicit
failure index in `writeAttempt`.
-/

/-- Modelled from the spec: the GET subsystem payload of a `MergerEvent`.
`MergerEvent` lives in `reader.rs`, which is outside the given source;
the field list follows section 3 of the spec (samples are modelled as
integers). -/
structure GetData where
  id : Nat
  timestamp : Nat
  timestamp_other : Nat
  traces : List Int
deriving DecidableEq

/-- Modelled from the spec: the FRIB subsystem payload of a `MergerEvent`. -/
structure FribData where
  event : Nat
  timestamp : Nat
  traces : List Int
  coincidence : List Int
deriving DecidableEq

/-- Modelled from the spec: a merger event consumed by the writer
(`run_number: i32`, `event: u64`, two independently optional payloads). -/
structure MergerEvent where
  run_number : Int
  event : Nat
  get : Option GetData
  frib : Option FribData
deriving DecidableEq

/-- Modelled from the spec: `construct_run_path(base, run)` from
`reader.rs` (outside the given source) is a pure deterministic function
embedding the run index in the produced path. -/
def construct_run_path (base : String) (run : Int) : String :=
  base ++ "_run_" ++ toString run

/-- An object inside the `events` group hierarchy: a scalar attribute of a
signed type, a scalar attribute of an unsigned type, a dataset (with its
own attached attributes), or a sub-group.  A freshly created attribute
holds `none` until `write_scalar` stores a value. -/
inductive Obj where
  | attrI : String → Option Int → Obj
  | attrN : String → Option Nat → Obj
  | dataset : String → List Int → List Obj → Obj
  | group : String → List Obj → Obj

/-- The name under which an object was created. -/
def Obj.name : Obj → String
  | .attrI n _ => n
  | .attrN n _ => n
  | .dataset n _ _ => n
  | .group n _ => n

/-- On-disk contents of one harmonic file after `init_file`: the three
attributes of the `events` group (`max_event` is created unwritten) and
the list of `event_k` sub-groups in creation order, each with its name
and contained objects. -/
structure HFile where
  min_event : Option Nat
  max_event : Option Nat
  version : Option String
  events : List (String × List Obj)

/-- Embeds `HarmonicWriter::init_file`: creates the `events` group, writes
`min_event = 0`, creates `max_event` without writing it, and writes the
`version` string `"<CARGO_PKG_NAME>:<CARGO_PKG_VERSION>"`. -/
def init_file (pkgName pkgVersion : String) : HFile :=
  { min_event := some 0
    max_event := none
    version := some (pkgName ++ ":" ++ pkgVersion)
    events := [] }

/-- Embeds `HarmonicWriter::finish_file`: overwrites the `max_event` attribute of
the `events` group with the given event counter. -/
def finish_file (f : HFile) (n : Nat) : HFile :=
  { f with max_event := some n }

/-- Replace the last element of a list (used to model container calls
that act on the most recently created object). -/
def setLast (f : Obj → Obj) : List Obj → List Obj
  | [] => []
  | [o] => [f o]
  | o :: rest => o :: setLast f rest

/-- Effect of `write_scalar` on a signed scalar attribute. -/
def writeScalarI (v : Int) : Obj → Obj
  | .attrI n _ => .attrI n (some v)
  | o => o

/-- Effect of `write_scalar` on an unsigned scalar attribute. -/
def writeScalarN (v : Nat) : Obj → Obj
  | .attrN n _ => .attrN n (some v)
  | o => o

/-- Effect of `new_attr` on a dataset: attach a freshly created attribute. -/
def dsAddAttr (a : Obj) : Obj → Obj
  | .dataset n d attrs => .dataset n d (attrs ++ [a])
  | o => o

/-- Effect of `write_scalar` on the most recently created attribute of a dataset. -/
def dsWriteLastN (v : Nat) : Obj → Obj
  | .dataset n d attrs => .dataset n d (setLast (writeScalarN v) attrs)
  | o => o

/-- Create an object inside a sub-group. -/
def grpAdd (a : Obj) : Obj → Obj
  | .group n objs => .group n (objs ++ [a])
  | o => o

/-- Effect of `write_scalar` on the most recently created attribute of a sub-group. -/
def grpWriteLastN (v : Nat) : Obj → Obj
  | .group n objs => .group n (setLast (writeScalarN v) objs)
  | o => o

/-- The fallible container calls of `HarmonicWriter::write` that act
inside the freshly created `event_<k>` group, in source order: the two
provenance attributes, then the optional `get_traces` dataset with its
three attributes, then the optional `frib_physics` sub-group with its two
attributes and two datasets.  Each list element is the on-disk effect of
one `?`-propagated call. -/
def innerOps (ev : MergerEvent) : List (List Obj → List Obj) :=
  [fun objs => objs ++ [.attrI "orig_run" none],
   setLast (writeScalarI ev.run_number),
   fun objs => objs ++ [.attrN "orig_event" none],
   setLast (writeScalarN ev.event)]
  ++ (match ev.get with
      | none => []
      | some g =>
        [fun objs => objs ++ [.dataset "get_traces" g.traces []],
         setLast (dsAddAttr (.attrN "id" none)),
         setLast (dsWriteLastN g.id),
         setLast (dsAddAttr (.attrN "timestamp" none)),
         setLast (dsWriteLastN g.timestamp),
         setLast (dsAddAttr (.attrN "timestamp_other" none)),
         setLast (dsWriteLastN g.timestamp_other)])
  ++ (match ev.frib with
      | none => []
      | some fr =>
        [fun objs => objs ++ [.group "frib_physics" []],
         setLast (grpAdd (.attrN "event" none)),
         setLast (grpWriteLastN fr.event),
         setLast (grpAdd (.attrN "timestamp" none)),
         setLast (grpWriteLastN fr.timestamp),
         setLast (grpAdd (.dataset "1903" fr.traces [])),
         setLast (grpAdd (.dataset "977" fr.coincidence []))])

/-- Contents of the `event_<k>` group after the whole encoding portion of
`write` succeeded. -/
def buildObjs (ev : MergerEvent) : List Obj :=
  (innerOps ev).foldl (fun objs op => op objs) []

/-- Number of fallible container calls in the encoding portion of
`write`: opening the `events` group, creating the `event_<k>` group, and
the calls of `innerOps`.  All of them precede `self.current_event += 1`. -/
def encLen (ev : MergerEvent) : Nat :=
  2 + (innerOps ev).length

/-- The on-disk file after the encoding portion of `write`: a new group
named `event_<idx>` holding `buildObjs ev` is appended to the `events`
group. -/
def encodeFile (f : HFile) (idx : Nat) (ev : MergerEvent) : HFile :=
  { f with events := f.events ++ [("event_" ++ toString idx, buildObjs ev)] }

/-- A file the writer has rolled away from: its run index, its path, and
its finalized contents. -/
structure ClosedFile where
  run : Int
  path : String
  file : HFile

/-- The writer state of `src/writer.rs`: the five in-memory fields, the
on-disk contents of the currently open file (standing for
`current_file`), plus bookkeeping for the model.  `pkg_name` and
`pkg_version` stand for the compile-time constants `env!("CARGO_PKG_NAME")`
and `env!("CARGO_PKG_VERSION")`; `closed` records the files the writer has
rolled away from, which the code never touches again. -/
structure HarmonicWriter where
  harmonic_path : String
  current_path : String
  file : HFile
  current_run : Int
  current_event : Nat
  harmonic_size : Nat
  pkg_name : String
  pkg_version : String
  closed : List ClosedFile

/-- Embeds `HarmonicWriter::new`: run 0, event counter 0, the run-0 file created
and initialized. -/
def HarmonicWriter.new (harmonic_path : String) (harmonic_size : Nat)
    (pkgName pkgVersion : String) : HarmonicWriter :=
  { harmonic_path := harmonic_path
    current_path := construct_run_path harmonic_path 0
    file := init_file pkgName pkgVersion
    current_run := 0
    current_event := 0
    harmonic_size := harmonic_size
    pkg_name := pkgName
    pkg_version := pkgVersion
    closed := [] }

/-- Embeds `HarmonicWriter::write`, success path.  `rsz` is the byte size the
container library reports for `current_path` after the event was encoded.
The counter is incremented after encoding; if `rsz` has reached
`harmonic_size`, the current file is finalized with the incremented
counter, the run index bumped, the path recomputed, and a fresh file
created and initialized. -/
def HarmonicWriter.write (s : HarmonicWriter) (ev : MergerEvent) (rsz : Nat) :
    HarmonicWriter :=
  let f1 := encodeFile s.file s.current_event ev
  let n1 := s.current_event + 1
  if s.harmonic_size ≤ rsz then
    { s with
      closed := s.closed ++ [⟨s.current_run, s.current_path, finish_file f1 n1⟩]
      current_event := 0
      current_run := s.current_run + 1
      current_path := construct_run_path s.harmonic_path (s.current_run + 1)
      file := init_file s.pkg_name s.pkg_version }
  else
    { s with file := f1, current_event := n1 }

/-- Embeds `HarmonicWriter::close`: takes `&self`; its only effect is
`finish_file` on the currently open file. -/
def HarmonicWriter.close (s : HarmonicWriter) : HarmonicWriter :=
  { s with file := finish_file s.file s.current_event }

/-- Drive the writer over a list of events, each paired with the file
size the container library reports after that event is encoded. -/
def runWriter (s : HarmonicWriter) (evs : List (MergerEvent × Nat)) :
    HarmonicWriter :=
  evs.foldl (fun s p => s.write p.1 p.2) s

/-- All files produced by a run once `close` is called: the rolled-away
files followed by the finalized current file. -/
def producedFiles (s : HarmonicWriter) : List HFile :=
  s.closed.map ClosedFile.file ++ [s.close.file]

/-- The on-disk file when the encoding portion of `write` fails at its
`k`-th fallible call (0-based; calls `0` and `1` open the `events` group
and create the `event_<idx>` group, later calls act inside the new
group): exactly the calls before `k` have taken effect. -/
def encodeFileUpTo (f : HFile) (idx : Nat) (ev : MergerEvent) (k : Nat) : HFile :=
  if k ≤ 1 then f
  else
    { f with
      events := f.events ++
        [("event_" ++ toString idx,
          ((innerOps ev).take (k - 2)).foldl (fun objs op => op objs) [])] }

/-- Embeds `HarmonicWriter::write` with an explicit failure oracle: `failAt =
some k` makes the `k`-th fallible container call of the body fail (the
encoding calls are indices `0 ≤ k < encLen ev`; index `encLen ev` is the
`current_path.metadata()` size query, which runs after
`self.current_event += 1`).  The returned flag is `false` on failure.  In
the source no in-memory field is assigned before the size query, so an
encoding failure returns with the partially written file and the
in-memory state untouched.  Failures in the rollover phase leave the
writer in a state the spec declares undefined and are not modelled:
larger indices behave as `none`. -/
def writeAttempt (s : HarmonicWriter) (ev : MergerEvent) (failAt : Option Nat)
    (rsz : Nat) : HarmonicWriter × Bool :=
  match failAt with
  | some k =>
    if k < encLen ev then
      ({ s with file := encodeFileUpTo s.file s.current_event ev k }, false)
    else if k = encLen ev then
      ({ s with
          file := encodeFile s.file s.current_event ev
          current_event := s.current_event + 1 }, false)
    else
      (s.write ev rsz, true)
  | none => (s.write ev rsz, true)

/-- Names of the event groups of a file holding `n` events: `event_0`
up to `event_(n-1)` in order. -/
def eventNames (n : Nat) : List String :=
  (List.range n).map (fun k => "event_" ++ toString k)

/-- A finalized file is well-formed: its `max_event` attribute equals its
number of event groups and those groups are named `event_k` for
`k ∈ [0, max_event)` in order. -/
def finalizedOK (f : HFile) : Prop :=
  f.max_event = some f.events.length ∧
  f.events.map Prod.fst = eventNames f.events.length

/-- Initialization metadata of a file: `min_event` written as 0 and
`version` written as `name ++ ":" ++ version`. -/
def metaOK (pkgName pkgVersion : String) (f : HFile) : Prop :=
  f.min_event = some 0 ∧ f.version = some (pkgName ++ ":" ++ pkgVersion)

/-- Reachability invariant of the writer: the current file's event groups
are `event_0 .. event_(current_event - 1)` in order, and every
rolled-away file is finalized and well-formed. -/
def Winv (s : HarmonicWriter) : Prop :=
  s.file.events.map Prod.fst = eventNames s.current_event ∧
  ∀ c ∈ s.closed, finalizedOK c.file

/-- Total number of events a writer state accounts for: events in
rolled-away files plus the current counter. -/
def countW (s : HarmonicWriter) : Nat :=
  (s.closed.map (fun c => c.file.events.length)).sum + s.current_event

lemma eventNames_succ (n : Nat) :
    eventNames (n + 1) = eventNames n ++ ["event_" ++ toString n] := by
  simp [eventNames, List.range_succ]

lemma eventNames_length (n : Nat) : (eventNames n).length = n := by
  simp [eventNames]

lemma events_length_of_names {f : HFile} {n : Nat}
    (h : f.events.map Prod.fst = eventNames n) : f.events.length = n := by
  have hl := congrArg List.length h
  simpa [eventNames_length] using hl

lemma write_of_ge (s : HarmonicWriter) (ev : MergerEvent) (rsz : Nat)
    (h : s.harmonic_size ≤ rsz) :
    s.write ev rsz =
      { s with
        closed := s.closed ++
          [⟨s.current_run, s.current_path,
            finish_file (encodeFile s.file s.current_event ev)
              (s.current_event + 1)⟩]
        current_event := 0
        current_run := s.current_run + 1
        current_path := construct_run_path s.harmonic_path (s.current_run + 1)
        file := init_file s.pkg_name s.pkg_version } := by
  simp [HarmonicWriter.write, h]

lemma write_of_lt (s : HarmonicWriter) (ev : MergerEvent) (rsz : Nat)
    (h : rsz < s.harmonic_size) :
    s.write ev rsz =
      { s with
        file := encodeFile s.file s.current_event ev
        current_event := s.current_event + 1 } := by
  simp [HarmonicWriter.write, Nat.not_le.mpr h]

lemma encodeFile_events_fst (f : HFile) (idx : Nat) (ev : MergerEvent) :
    (encodeFile f idx ev).events.map Prod.fst =
      f.events.map Prod.fst ++ ["event_" ++ toString idx] := by
  simp [encodeFile]

lemma finalizedOK_finish {f : HFile} {n : Nat}
    (h : f.events.map Prod.fst = eventNames n) :
    finalizedOK (finish_file f n) := by
  have hl : f.events.length = n := events_length_of_names h
  refine ⟨?_, ?_⟩
  · simp [finish_file, hl]
  · simpa [finish_file, hl] using h

lemma Winv_new (p : String) (hsz : Nat) (pn pv : String) :
    Winv (HarmonicWriter.new p hsz pn pv) := by
  refine ⟨rfl, ?_⟩
  intro c hc
  simp [HarmonicWriter.new] at hc

lemma Winv_write (s : HarmonicWriter) (ev : MergerEvent) (rsz : Nat)
    (h : Winv s) : Winv (s.write ev rsz) := by
  obtain ⟨h1, h2⟩ := h
  have henc : (encodeFile s.file s.current_event ev).events.map Prod.fst =
      eventNames (s.current_event + 1) := by
    rw [encodeFile_events_fst, h1, eventNames_succ]
  by_cases hb : s.harmonic_size ≤ rsz
  · rw [write_of_ge s ev rsz hb]
    refine ⟨rfl, ?_⟩
    intro c hc
    simp only [List.mem_append, List.mem_singleton] at hc
    rcases hc with hc | hc
    · exact h2 c hc
    · subst hc
      exact finalizedOK_finish henc
  · rw [write_of_lt s ev rsz (Nat.lt_of_not_le hb)]
    exact ⟨henc, h2⟩

lemma countW_write (s : HarmonicWriter) (ev : MergerEvent) (rsz : Nat)
    (h : Winv s) : countW (s.write ev rsz) = countW s + 1 := by
  obtain ⟨h1, _⟩ := h
  have hl : s.file.events.length = s.current_event := events_length_of_names h1
  by_cases hb : s.harmonic_size ≤ rsz
  · rw [write_of_ge s ev rsz hb]
    simp [countW, finish_file, encodeFile, hl]
    omega
  · rw [write_of_lt s ev rsz (Nat.lt_of_not_le hb)]
    simp [countW]
    omega

lemma runWriter_nil (s : HarmonicWriter) : runWriter s [] = s := rfl

lemma runWriter_cons (s : HarmonicWriter) (p : MergerEvent × Nat)
    (evs : List (MergerEvent × Nat)) :
    runWriter s (p :: evs) = runWriter (s.write p.1 p.2) evs := rfl

lemma Winv_run : ∀ (evs : List (MergerEvent × Nat)) (s : HarmonicWriter),
    Winv s → Winv (runWriter s evs)
  | [], _, h => h
  | p :: evs, s, h => Winv_run evs _ (Winv_write s p.1 p.2 h)

lemma countW_run : ∀ (evs : List (MergerEvent × Nat)) (s : HarmonicWriter),
    Winv s → countW (runWriter s evs) = countW s + evs.length
  | [], s, _ => by simp [runWriter_nil]
  | p :: evs, s, h => by
    rw [runWriter_cons, countW_run evs _ (Winv_write s p.1 p.2 h),
      countW_write s p.1 p.2 h]
    simp
    omega

lemma closed_write (s : HarmonicWriter) (ev : MergerEvent) (rsz : Nat) :
    ∃ l, (s.write ev rsz).closed = s.closed ++ l := by
  by_cases hb : s.harmonic_size ≤ rsz
  · refine ⟨[⟨s.current_run, s.current_path,
      finish_file (encodeFile s.file s.current_event ev)
        (s.current_event + 1)⟩], ?_⟩
    rw [write_of_ge s ev rsz hb]
  · refine ⟨[], ?_⟩
    rw [write_of_lt s ev rsz (Nat.lt_of_not_le hb)]
    simp

lemma closed_run : ∀ (evs : List (MergerEvent × Nat)) (s : HarmonicWriter),
    ∃ l, (runWriter s evs).closed = s.closed ++ l
  | [], s => ⟨[], by simp [runWriter_nil]⟩
  | p :: evs, s => by
    obtain ⟨l1, hl1⟩ := closed_write s p.1 p.2
    obtain ⟨l2, hl2⟩ := closed_run evs (s.write p.1 p.2)
    exact ⟨l1 ++ l2, by rw [runWriter_cons, hl2, hl1, List.append_assoc]⟩

lemma pkg_write (s : HarmonicWriter) (ev : MergerEvent) (rsz : Nat) :
    (s.write ev rsz).pkg_name = s.pkg_name ∧
    (s.write ev rsz).pkg_version = s.pkg_version := by
  by_cases hb : s.harmonic_size ≤ rsz
  · rw [write_of_ge s ev rsz hb]; exact ⟨rfl, rfl⟩
  · rw [write_of_lt s ev rsz (Nat.lt_of_not_le hb)]; exact ⟨rfl, rfl⟩

/-- Metadata invariant: the current file and every rolled-away file carry
the initialization metadata. -/
def MinvP (s : HarmonicWriter) : Prop :=
  metaOK s.pkg_name s.pkg_version s.file ∧
  ∀ c ∈ s.closed, metaOK s.pkg_name s.pkg_version c.file

lemma metaOK_finish {pn pv : String} {f : HFile} {n : Nat}
    (h : metaOK pn pv f) : metaOK pn pv (finish_file f n) := by
  simpa [metaOK, finish_file] using h

lemma metaOK_encode {pn pv : String} {f : HFile} {idx : Nat} {ev : MergerEvent}
    (h : metaOK pn pv f) : metaOK pn pv (encodeFile f idx ev) := by
  simpa [metaOK, encodeFile] using h

lemma metaOK_init (pn pv : String) : metaOK pn pv (init_file pn pv) := ⟨rfl, rfl⟩

lemma Minv_write (s : HarmonicWriter) (ev : MergerEvent) (rsz : Nat)
    (h : MinvP s) : MinvP (s.write ev rsz) := by
  obtain ⟨h1, h2⟩ := h
  by_cases hb : s.harmonic_size ≤ rsz
  · rw [write_of_ge s ev rsz hb]
    refine ⟨metaOK_init _ _, ?_⟩
    intro c hc
    simp only [List.mem_append, List.mem_singleton] at hc
    rcases hc with hc | hc
    · exact h2 c hc
    · subst hc
      exact metaOK_finish (metaOK_encode h1)
  · rw [write_of_lt s ev rsz (Nat.lt_of_not_le hb)]
    exact ⟨metaOK_encode h1, h2⟩

lemma Minv_run : ∀ (evs : List (MergerEvent × Nat)) (s : HarmonicWriter),
    MinvP s → MinvP (runWriter s evs)
  | [], _, h => h
  | p :: evs, s, h => Minv_run evs _ (Minv_write s p.1 p.2 h)

lemma pkg_run : ∀ (evs : List (MergerEvent × Nat)) (s : HarmonicWriter),
    (runWriter s evs).pkg_name = s.pkg_name ∧
    (runWriter s evs).pkg_version = s.pkg_version
  | [], _ => ⟨rfl, rfl⟩
  | p :: evs, s => by
    obtain ⟨a, b⟩ := pkg_run evs (s.write p.1 p.2)
    obtain ⟨c, d⟩ := pkg_write s p.1 p.2
    exact ⟨by rw [runWriter_cons, a, c], by rw [runWriter_cons, b, d]⟩

lemma sum_closed (cs : List ClosedFile) (h : ∀ c ∈ cs, finalizedOK c.file) :
    ((cs.map ClosedFile.file).map (fun f => f.max_event.getD 0)).sum =
      (cs.map (fun c => c.file.events.length)).sum := by
  induction cs with
  | nil => simp
  | cons c cs ih =>
    have hc := (h c (by simp)).1
    simp only [List.map_cons, List.sum_cons, hc]
    rw [ih (fun c hc => h c (by simp [hc]))]
    simp

/-- C1: for every sequence of N events written then closed (all container
calls succeeding), the sum of the produced files' finalized `max_event`
attributes equals N, and each produced file's `events` group holds
exactly `max_event` sub-groups named `event_k` for `k ∈ [0, max_event)`. -/
theorem C1_total_events_conserved (p : String) (hsz : Nat) (pn pv : String)
    (evs : List (MergerEvent × Nat)) :
    (∀ f ∈ producedFiles (runWriter (HarmonicWriter.new p hsz pn pv) evs),
        finalizedOK f) ∧
    ((producedFiles (runWriter (HarmonicWriter.new p hsz pn pv) evs)).map
        (fun f => f.max_event.getD 0)).sum = evs.length := by
  have hw : Winv (runWriter (HarmonicWriter.new p hsz pn pv) evs) :=
    Winv_run evs _ (Winv_new p hsz pn pv)
  have hcnt : countW (runWriter (HarmonicWriter.new p hsz pn pv) evs) =
      evs.length := by
    rw [countW_run evs _ (Winv_new p hsz pn pv)]
    simp [countW, HarmonicWriter.new]
  set s := runWriter (HarmonicWriter.new p hsz pn pv) evs with hs
  obtain ⟨h1, h2⟩ := hw
  have hclose : s.close.file = finish_file s.file s.current_event := rfl
  have hcur : finalizedOK s.close.file := by
    rw [hclose]
    exact finalizedOK_finish h1
  constructor
  · intro f hf
    simp only [producedFiles, List.mem_append, List.mem_map,
      List.mem_singleton] at hf
    rcases hf with ⟨c, hc, rfl⟩ | rfl
    · exact h2 c hc
    · exact hcur
  · have hmax : s.close.file.max_event.getD 0 = s.current_event := by
      rw [hclose]
      simp [finish_file]
    simp only [producedFiles, List.map_append, List.sum_append,
      List.map_singleton, List.sum_singleton, hmax]
    rw [sum_closed s.closed h2]
    simpa [countW] using hcnt

/-- Witness for C1 at a concrete one-event run. -/
theorem C1_total_events_conserved_witness :
    ((producedFiles (runWriter (HarmonicWriter.new "b" 2 "n" "v")
        [(⟨0, 0, none, none⟩, 5)])).map
      (fun f => f.max_event.getD 0)).sum = 1 :=
  (C1_total_events_conserved "b" 2 "n" "v" [(⟨0, 0, none, none⟩, 5)]).2

/-- C2: when the reported size of the current file has reached
`harmonic_size` after a write, that file is finalized and rolled away
with the current run index, the next run index is exactly one greater,
the new current file is freshly initialized, and no later write ever
touches the rolled-away files again. -/
theorem C2_rollover_on_size (s : HarmonicWriter) (ev : MergerEvent)
    (rsz : Nat) (evs : List (MergerEvent × Nat))
    (h : s.harmonic_size ≤ rsz) :
    (s.write ev rsz).closed = s.closed ++
      [⟨s.current_run, s.current_path,
        finish_file (encodeFile s.file s.current_event ev)
          (s.current_event + 1)⟩] ∧
    (s.write ev rsz).current_run = s.current_run + 1 ∧
    (s.write ev rsz).current_event = 0 ∧
    (s.write ev rsz).file = init_file s.pkg_name s.pkg_version ∧
    (∃ l, (runWriter (s.write ev rsz) evs).closed =
      (s.write ev rsz).closed ++ l) := by
  rw [write_of_ge s ev rsz h]
  exact ⟨rfl, rfl, rfl, rfl, closed_run evs _⟩

/-- Witness for C2 at a concrete rollover. -/
theorem C2_rollover_on_size_witness :
    ((HarmonicWriter.new "b" 0 "n" "v").write ⟨0, 0, none, none⟩ 0).current_run =
      (HarmonicWriter.new "b" 0 "n" "v").current_run + 1 :=
  (C2_rollover_on_size (HarmonicWriter.new "b" 0 "n" "v") ⟨0, 0, none, none⟩ 0 []
    (by decide)).2.1

lemma buildObjs_names_nn (r : Int) (n : Nat) :
    (buildObjs ⟨r, n, none, none⟩).map Obj.name =
      ["orig_run", "orig_event"] := rfl

lemma buildObjs_names_nf (r : Int) (n : Nat) (fd : FribData) :
    (buildObjs ⟨r, n, none, some fd⟩).map Obj.name =
      ["orig_run", "orig_event", "frib_physics"] := rfl

lemma buildObjs_names_gn (r : Int) (n : Nat) (gd : GetData) :
    (buildObjs ⟨r, n, some gd, none⟩).map Obj.name =
      ["orig_run", "orig_event", "get_traces"] := rfl

/-- C4: in each event group, `get = None` yields no `get_traces` object,
`frib = None` yields no `frib_physics` object, and with both absent the
group holds exactly the two provenance attributes. -/
theorem C4_optional_payloads (ev : MergerEvent) (f : HFile) (idx : Nat) :
    (encodeFile f idx ev).events =
      f.events ++ [("event_" ++ toString idx, buildObjs ev)] ∧
    (ev.get = none → "get_traces" ∉ (buildObjs ev).map Obj.name) ∧
    (ev.frib = none → "frib_physics" ∉ (buildObjs ev).map Obj.name) ∧
    (ev.get = none → ev.frib = none →
      buildObjs ev = [.attrI "orig_run" (some ev.run_number),
        .attrN "orig_event" (some ev.event)]) := by
  obtain ⟨r, n, g, fr⟩ := ev
  cases g with
  | none =>
    cases fr with
    | none => exact ⟨rfl,
        fun _ => by rw [buildObjs_names_nn]; decide,
        fun _ => by rw [buildObjs_names_nn]; decide,
        fun _ _ => rfl⟩
    | some fd => exact ⟨rfl,
        fun _ => by rw [buildObjs_names_nf]; decide,
        fun hf => Option.noConfusion hf,
        fun _ hf => Option.noConfusion hf⟩
  | some gd =>
    cases fr with
    | none => exact ⟨rfl, fun hg => Option.noConfusion hg,
        fun _ => by rw [buildObjs_names_gn]; decide,
        fun hg _ => Option.noConfusion hg⟩
    | some fd => exact ⟨rfl, fun hg => Option.noConfusion hg,
        fun hf => Option.noConfusion hf,
        fun hg _ => Option.noConfusion hg⟩

/-- Witness for C4 at a concrete payload-free event. -/
theorem C4_optional_payloads_witness :
    buildObjs ⟨7, 9, none, none⟩ =
      [.attrI "orig_run" (some 7), .attrN "orig_event" (some 9)] :=
  (C4_optional_payloads ⟨7, 9, none, none⟩ (init_file "n" "v") 0).2.2.2 rfl rfl

/-- C5: every file the writer initializes (the run-0 file of `new` and
every rollover file) has `min_event` written as 0 and `version` written
as the package name, a colon, and the package version. -/
theorem C5_init_metadata (p : String) (hsz : Nat) (pn pv : String)
    (evs : List (MergerEvent × Nat)) :
    metaOK pn pv (runWriter (HarmonicWriter.new p hsz pn pv) evs).file ∧
    ∀ c ∈ (runWriter (HarmonicWriter.new p hsz pn pv) evs).closed,
      metaOK pn pv c.file := by
  have hm : MinvP (runWriter (HarmonicWriter.new p hsz pn pv) evs) :=
    Minv_run evs _ ⟨metaOK_init pn pv, by
      intro c hc
      simp [HarmonicWriter.new] at hc⟩
  have e1 : (runWriter (HarmonicWriter.new p hsz pn pv) evs).pkg_name = pn :=
    (pkg_run evs (HarmonicWriter.new p hsz pn pv)).1
  have e2 : (runWriter (HarmonicWriter.new p hsz pn pv) evs).pkg_version = pv :=
    (pkg_run evs (HarmonicWriter.new p hsz pn pv)).2
  obtain ⟨h1, h2⟩ := hm
  rw [e1, e2] at h1 h2
  exact ⟨h1, h2⟩

/-- Witness for C5 at a concrete run. -/
theorem C5_init_metadata_witness :
    metaOK "n" "v" (runWriter (HarmonicWriter.new "b" 0 "n" "v")
      [(⟨0, 0, none, none⟩, 3)]).file :=
  (C5_init_metadata "b" 0 "n" "v" [(⟨0, 0, none, none⟩, 3)]).1

/-- C6: `new` followed immediately by `close` produces a single file
whose `max_event` is finalized to 0. -/
theorem C6_close_without_write (p : String) (hsz : Nat) (pn pv : String) :
    (HarmonicWriter.new p hsz pn pv).closed = [] ∧
    producedFiles (HarmonicWriter.new p hsz pn pv) =
      [{ min_event := some 0, max_event := some 0,
         version := some (pn ++ ":" ++ pv), events := [] }] :=
  ⟨rfl, rfl⟩

/-- C7: `current_event` is 0 at construction, 0 right after a rollover,
incremented by exactly one by a non-rollover write, and always equals
the number of event groups in the currently open file. -/
theorem C7_counter_invariant (p : String) (hsz : Nat) (pn pv : String)
    (evs : List (MergerEvent × Nat)) (s : HarmonicWriter)
    (ev : MergerEvent) (rsz : Nat) :
    (HarmonicWriter.new p hsz pn pv).current_event = 0 ∧
    (rsz < s.harmonic_size →
      (s.write ev rsz).current_event = s.current_event + 1) ∧
    (s.harmonic_size ≤ rsz → (s.write ev rsz).current_event = 0) ∧
    (runWriter (HarmonicWriter.new p hsz pn pv) evs).current_event =
      (runWriter (HarmonicWriter.new p hsz pn pv) evs).file.events.length := by
  refine ⟨rfl, ?_, ?_, ?_⟩
  · intro h
    rw [write_of_lt s ev rsz h]
  · intro h
    rw [write_of_ge s ev rsz h]
  · have hw := (Winv_run evs _ (Winv_new p hsz pn pv)).1
    exact (events_length_of_names hw).symm

/-- Witness for C7 at a concrete non-rollover write. -/
theorem C7_counter_invariant_witness :
    ((HarmonicWriter.new "b" 9 "n" "v").write ⟨0, 0, none, none⟩ 2).current_event =
      (HarmonicWriter.new "b" 9 "n" "v").current_event + 1 :=
  (C7_counter_invariant "b" 9 "n" "v" [] (HarmonicWriter.new "b" 9 "n" "v")
    ⟨0, 0, none, none⟩ 2).2.1 (by decide)

/-- C8: a container failure anywhere in the event-encoding portion of
`write` (before `current_event += 1`) returns an error while every
in-memory writer field is exactly as before the call, even though the
file may hold a partially written event group. -/
theorem C8_encode_failure_keeps_state (s : HarmonicWriter) (ev : MergerEvent)
    (rsz k : Nat) (h : k < encLen ev) :
    (writeAttempt s ev (some k) rsz).2 = false ∧
    (writeAttempt s ev (some k) rsz).1.current_event = s.current_event ∧
    (writeAttempt s ev (some k) rsz).1.current_run = s.current_run ∧
    (writeAttempt s ev (some k) rsz).1.current_path = s.current_path ∧
    (writeAttempt s ev (some k) rsz).1.harmonic_path = s.harmonic_path ∧
    (writeAttempt s ev (some k) rsz).1.harmonic_size = s.harmonic_size := by
  simp [writeAttempt, h]

/-- Witness for C8: failure at the very first call of a concrete write. -/
theorem C8_encode_failure_keeps_state_witness :
    (writeAttempt (HarmonicWriter.new "b" 4 "n" "v") ⟨0, 0, none, none⟩
      (some 0) 9).2 = false :=
  (C8_encode_failure_keeps_state (HarmonicWriter.new "b" 4 "n" "v")
    ⟨0, 0, none, none⟩ 9 0 (by decide)).1

/-- C9: `close` takes the writer by shared reference: it leaves every
writer field unchanged, writes `max_event = current_event`, and calling
it repeatedly produces the same result — it is idempotent. -/
theorem C9_close_idempotent (s : HarmonicWriter) :
    s.close.close = s.close ∧
    s.close.current_event = s.current_event ∧
    s.close.current_run = s.current_run ∧
    s.close.current_path = s.current_path ∧
    s.close.harmonic_path = s.harmonic_path ∧
    s.close.harmonic_size = s.harmonic_size ∧
    s.close.closed = s.closed ∧
    s.close.file.max_event = some s.current_event :=
  ⟨rfl, rfl, rfl, rfl, rfl, rfl, rfl, rfl⟩

/-- C10: `new` performs no validation of `harmonic_size` — it succeeds
for every value including 0 — and with `harmonic_size = 0` every
successful write rolls over, since the size check `len ≥ 0` always
holds. -/
theorem C10_no_size_validation (p pn pv : String) (hsz : Nat)
    (s : HarmonicWriter) (ev : MergerEvent) (rsz : Nat) :
    (HarmonicWriter.new p hsz pn pv).harmonic_size = hsz ∧
    (HarmonicWriter.new p hsz pn pv).current_run = 0 ∧
    (HarmonicWriter.new p hsz pn pv).current_event = 0 ∧
    (s.harmonic_size = 0 →
      (s.write ev rsz).current_run = s.current_run + 1 ∧
      (s.write ev rsz).current_event = 0 ∧
      (s.write ev rsz).closed.length = s.closed.length + 1) := by
  refine ⟨rfl, rfl, rfl, ?_⟩
  intro h0
  have hge : s.harmonic_size ≤ rsz := h0 ▸ Nat.zero_le rsz
  rw [write_of_ge s ev rsz hge]
  exact ⟨rfl, rfl, by simp⟩

/-- Witness for C10: a writer with budget 0 rolls over on a write whose
reported size is 0. -/
theorem C10_no_size_validation_witness :
    ((HarmonicWriter.new "b" 0 "n" "v").write ⟨0, 0, none, none⟩ 0).current_run =
      (HarmonicWriter.new "b" 0 "n" "v").current_run + 1 :=
  ((C10_no_size_validation "b" "n" "v" 0 (HarmonicWriter.new "b" 0 "n" "v")
    ⟨0, 0, none, none⟩ 0).2.2.2 rfl).1

lemma buildObjs_none {ev : MergerEvent} (hg : ev.get = none)
    (hf : ev.frib = none) :
    buildObjs ev = [.attrI "orig_run" (some ev.run_number),
      .attrN "orig_event" (some ev.event)] := by
  simp [buildObjs, innerOps, hg, hf, setLast, writeScalarI, writeScalarN]

/-- C3 counterexample: with `harmonic_size = 1`, writing 3 payload-free
events (every reported size positive) and closing produces 4 files, not
3 — the third rollover creates and initializes a fresh file that `close`
finalizes with `max_event = 0`. -/
theorem C3_three_events_counterexample :
    (producedFiles (runWriter (HarmonicWriter.new "b" 1 "n" "v")
      [(⟨0, 0, none, none⟩, 8), (⟨0, 1, none, none⟩, 8),
       (⟨0, 2, none, none⟩, 8)])).length ≠ 3 := by
  decide

/-- C3 amended: with `harmonic_size = 1` and every reported size ≥ 1,
writing 3 payload-free events then closing yields exactly 4 files: three
with `max_event = 1` and a single `event_0` group holding only the
`orig_run` and `orig_event` attributes, followed by a final empty file
with `max_event = 0`. -/
theorem C3_three_events_amended (p pn pv : String) (e1 e2 e3 : MergerEvent)
    (r1 r2 r3 : Nat)
    (hg1 : e1.get = none) (hf1 : e1.frib = none)
    (hg2 : e2.get = none) (hf2 : e2.frib = none)
    (hg3 : e3.get = none) (hf3 : e3.frib = none)
    (h1 : 1 ≤ r1) (h2 : 1 ≤ r2) (h3 : 1 ≤ r3) :
    producedFiles (runWriter (HarmonicWriter.new p 1 pn pv)
        [(e1, r1), (e2, r2), (e3, r3)]) =
      [{ min_event := some 0, max_event := some 1,
         version := some (pn ++ ":" ++ pv),
         events := [("event_0",
           [.attrI "orig_run" (some e1.run_number),
            .attrN "orig_event" (some e1.event)])] },
       { min_event := some 0, max_event := some 1,
         version := some (pn ++ ":" ++ pv),
         events := [("event_0",
           [.attrI "orig_run" (some e2.run_number),
            .attrN "orig_event" (some e2.event)])] },
       { min_event := some 0, max_event := some 1,
         version := some (pn ++ ":" ++ pv),
         events := [("event_0",
           [.attrI "orig_run" (some e3.run_number),
            .attrN "orig_event" (some e3.event)])] },
       { min_event := some 0, max_event := some 0,
         version := some (pn ++ ":" ++ pv), events := [] }] := by
  rw [runWriter_cons, runWriter_cons, runWriter_cons, runWriter_nil]
  rw [write_of_ge _ e1 r1 h1]
  rw [write_of_ge _ e2 r2 h2]
  rw [write_of_ge _ e3 r3 h3]
  simp only [producedFiles, HarmonicWriter.close, HarmonicWriter.new,
    finish_file, encodeFile, init_file, buildObjs_none hg1 hf1,
    buildObjs_none hg2 hf2, buildObjs_none hg3 hf3, List.map_nil,
    List.nil_append, List.map_cons, List.map_append, List.singleton_append,
    List.cons_append]
  rfl

/-- Witness for the amended C3 at concrete events and sizes. -/
theorem C3_three_events_amended_witness :
    (producedFiles (runWriter (HarmonicWriter.new "b" 1 "n" "v")
      [(⟨0, 0, none, none⟩, 8), (⟨0, 1, none, none⟩, 8),
       (⟨0, 2, none, none⟩, 8)])).length = 4 := by
  rw [C3_three_events_amended "b" "n" "v" ⟨0, 0, none, none⟩ ⟨0, 1, none, none⟩
    ⟨0, 2, none, none⟩ 8 8 8 rfl rfl rfl rfl rfl rfl
    (by decide) (by decide) (by decide)]
  rfl
